import Mathlib

/-!
Verification of the derived-field registry and dependency-resolution engine
(`yt/fields/field_info_container.py`).

The Python source is shallowly embedded: the registry (a `dict` subclass with
a fallback chain) becomes an inductive `FIC`; mutation becomes explicit state
passing; raising Python exceptions becomes `Except PyExc`.  External
collaborators that are not part of the source file (the unit system consumed
through `Unit`/`unit_system`, and `DerivedField.get_dependencies` from
`derived_field.py`) are taken as opaque function parameters in the
configuration record, modelled from the spec.
-/

namespace Yt

/-! ## Python string / tuple ordering

Python compares strings lexicographically by code point and tuples
lexicographically component-wise.  The library order on `String` does not
reduce in the kernel, so the comparison is defined executably on the
underlying character lists.  `sorted` with a strict order `lt` is modelled
by `List.mergeSort` with `le a b := !(lt b a)`. -/

/-- Code-point lexicographic `<` on character lists (Python string `<`). -/
def chListLt : List Char → List Char → Bool
  | [], [] => false
  | [], _ :: _ => true
  | _ :: _, [] => false
  | a :: as, b :: bs =>
    if a.toNat < b.toNat then true
    else if a.toNat = b.toNat then chListLt as bs
    else false

/-- Python string `<`. -/
def strLtB (a b : String) : Bool := chListLt a.data b.data

/-- Non-strict order obtained from a strict one, as used by a sort on `<`. -/
def leOf {α : Type} (lt : α → α → Bool) (a b : α) : Bool := !(lt b a)

/-- Python string `<=`. -/
def strLeB (a b : String) : Bool := leOf strLtB a b

/-- Python tuple `<` on pairs of strings. -/
def pairLtB (a b : String × String) : Bool :=
  strLtB a.1 b.1 || (decide (a.1 = b.1) && strLtB a.2 b.2)

/-- Python tuple `<=` on pairs of strings. -/
def pairLeB (a b : String × String) : Bool := leOf pairLtB a b

/-! ## Data model

Field keys of the registry `dict` are either bare strings or
`(field_type, field_name)` tuples; `FName` covers both.  The dataset's
on-disk field list (`self.field_list`) and the `requested` sets hold
identity tuples, typed here as `String × String`. -/

/-- A key of the registry dict: a bare name string or an identity tuple. -/
inductive FName where
  | bare (s : String)
  | pair (t n : String)
deriving DecidableEq, Repr

/-- `tupleize(inp)`: an identity tuple is returned unchanged; a bare name is
prefixed with the sentinel `"?"` so that sort order is deterministic
(source lines 23-31). -/
def tupleize : FName → String × String
  | .pair t n => (t, n)
  | .bare s => ("?", s)

/-- Python tuple `<=` pulled back along `tupleize`: the key used to sort the
published derived-field list. -/
def tupLeB (a b : FName) : Bool := pairLeB (tupleize a) (tupleize b)

/-- Value found in `ds.field_units`: either a unit string or a bare numeric
multiplier (`isinstance(units, (numeric_type, np.number, np.ndarray))`). -/
inductive UVal where
  | ustr (s : String)
  | unum (n : Int)
deriving DecidableEq, Repr

/-- The computing function stored in a `DerivedField`: the `NullFunc`
sentinel, a `TranslationFunc(original_name)` wrapper, or an opaque
plugin-supplied callable (tagged by a number). -/
inductive FuncK where
  | nullFunc
  | translationFunc (src : FName)
  | userFunc (id : Nat)
deriving DecidableEq, Repr

/-- The metadata of a `DerivedField` that this file constructs and reads
(name, sampling type, function, units, display name); the remaining
constructor arguments are never consulted by the container. -/
structure DerivedField where
  name : FName
  sampling_type : String
  func : FuncK
  units : String
  display_name : Option String := none
deriving DecidableEq, Repr

/-- The result of `DerivedField.get_dependencies`: an object whose
`requested` attribute lists the on-disk identities touched. -/
structure FieldDetector where
  requested : List (String × String)
deriving DecidableEq, Repr

/-- Python exceptions that the embedded code can raise. -/
inductive PyExc where
  /-- `KeyError` — raised by `__missing__` as `KeyError(f"No field named
  {key}")` and by `dict.pop` on a missing key; it carries the key. -/
  | keyError (k : FName)
  /-- `TypeError` from unsupported `dict_keys + list` in `keys`. -/
  | typeError
  /-- `YTFieldNotFound` (the only kind `check_derived_fields` treats as
  "field truly absent"). -/
  | ytFieldNotFound (k : FName)
  /-- `RuntimeError` from `_sanitize_sampling_type` on conflicting options. -/
  | runtimeError
  /-- `ValueError` from `_sanitize_sampling_type` on a bad sampling type. -/
  | valueError
  /-- Any other exception raised inside `get_dependencies`. -/
  | userError (n : Nat)
  /-- Out of fuel in the bounded embedding of the `add_field`/`alias`
  recursion (never reached at the recursion depths the source exhibits). -/
  | fuelOut
deriving DecidableEq, Repr

/-- `isinstance(e, YTFieldNotFound)`. -/
def PyExc.isFieldNotFound : PyExc → Bool
  | .ytFieldNotFound _ => true
  | _ => false

/-- The `FieldInfoContainer` dict contents: the local mapping (a `dict` is an
insertion-ordered association list with unique keys) plus the optional
`fallback` registry.  The Python `fallback = None` / `fallback = <registry>`
distinction is encoded as two constructors (`mk` / `mkf`) rather than a
nested `Option`, so that recursion over the chain is structural. -/
inductive FIC where
  | mk (entries : List (FName × DerivedField))
  | mkf (entries : List (FName × DerivedField)) (fallback : FIC)

def FIC.entries : FIC → List (FName × DerivedField)
  | .mk e => e
  | .mkf e _ => e

def FIC.fallback : FIC → Option FIC
  | .mk _ => none
  | .mkf _ f => some f

/-- Replace the local dict contents, keeping the fallback reference. -/
def FIC.withEntries : FIC → List (FName × DerivedField) → FIC
  | .mk _, e => .mk e
  | .mkf _ f, e => .mkf e f

/-- Mutable state owned by the registry and its dataset: the dict itself,
`self.field_aliases`, `ds.derived_field_list` and `ds.field_dependencies`. -/
structure St where
  fic : FIC
  field_aliases : List (FName × FName) := []
  derived_field_list : List FName := []
  field_dependencies : List (FName × FieldDetector) := []

/-- An entry of a static known-field catalog: `(units, aliases, display_name)`. -/
abbrev KnownEntry := String × List String × Option String

/-- Static configuration: the dataset facts the container consumes, the class
catalogs, and the external collaborators.  `dimOf`/`unitSystem` model the
unit system (`Unit(u).dimensions`, returning `none` for dimensionless, and
`str(self.ds.unit_system[dims])`); `getDeps` models
`DerivedField.get_dependencies(ds=self.ds)` from `derived_field.py`, which is
not part of this source file — modelled from the spec as a deterministic
dry-run returning the `requested` identities or raising (spec section 4.5,
steps 1-2; determinism per "cached, not recomputed", spec section 3). -/
structure Cfg where
  field_list : List (String × String)
  particle_types : List String
  field_units : List (FName × UVal) := []
  axis_order : String × String × String
  default_fluid_type : String := "gas"
  curvilinear : Bool
  known_other_fields : List (String × KnownEntry) := []
  show_field_errors : List FName := []
  field_test_dataset : Bool := false
  dimOf : String → Option String
  unitSystem : String → String
  getDeps : DerivedField → Except PyExc FieldDetector

/-! ## Generic dict operations -/

/-- Association-list lookup (Python `dict` access on unique keys). -/
def alookup {α β : Type} [DecidableEq α] : List (α × β) → α → Option β
  | [], _ => none
  | p :: ps, k => if p.1 = k then some p.2 else alookup ps k

/-- Python `d[k] = v`: replace in place if the key exists, else append. -/
def dinsert {α β : Type} [DecidableEq α] (m : List (α × β)) (k : α) (v : β) :
    List (α × β) :=
  if m.any (fun p => p.1 = k) then
    m.map (fun p => if p.1 = k then (k, v) else p)
  else m ++ [(k, v)]

/-- Python `d.update(d2)`. -/
def dupdate {α β : Type} [DecidableEq α] (m Δ : List (α × β)) : List (α × β) :=
  Δ.foldl (fun acc p => dinsert acc p.1 p.2) m

/-- Python `dict(pairs)` lookup: on duplicate keys the last pair wins. -/
def dictLast {α β : Type} [DecidableEq α] (m : List (α × β)) (k : α) : Option β :=
  alookup m.reverse k

/-! ## Container operations (`FieldInfoContainer` dict protocol) -/

/-- `__contains__` (source lines 445-450): the local dict first, then the
fallback chain. -/
def containsB : FIC → FName → Bool
  | .mk e, k =>
    if e.any (fun p => p.1 = k) then true else false
  | .mkf e f, k =>
    if e.any (fun p => p.1 = k) then true else containsB f k

/-- `self[key]`: `dict.__getitem__`, deferring to `__missing__` (source lines
433-436) on a local miss — recurse into the fallback, or raise
`KeyError(f"No field named {key}")` when there is none. -/
def getItemE : FIC → FName → Except PyExc DerivedField
  | .mk e, k =>
    match alookup e k with
    | some v => .ok v
    | none => .error (.keyError k)
  | .mkf e f, k =>
    match alookup e k with
    | some v => .ok v
    | none => getItemE f k

/-- `self[name] = value`: plain dict assignment, local only. -/
def insertF (r : FIC) (k : FName) (v : DerivedField) : FIC :=
  r.withEntries (dinsert r.entries k v)

/-- `self.pop(field)`: `dict.pop` with no default — removes the local entry
or raises `KeyError`; the fallback is not consulted. -/
def popE (r : FIC) (k : FName) : Except PyExc FIC :=
  if r.entries.any (fun p => p.1 = k) then
    .ok (r.withEntries (r.entries.eraseP (fun p => decide (p.1 = k))))
  else .error (.keyError k)

/-- `has_key` (source lines 425-431). -/
def has_key (r : FIC) (k : FName) : Bool :=
  if containsB r k then true
  else match r.fallback with
    | none => false
    | some f => containsB f k

/-- `keys` (source lines 459-463): `keys = dict.keys(self)` then, when
`self.fallback` is truthy (a non-empty dict), `keys += list(self.fallback.keys())`.
The right-hand side is evaluated first (and may itself raise); the `+=` then
raises `TypeError`, because a `dict_keys` view does not support `+`. -/
def keysE : FIC → Except PyExc (List FName)
  | .mk e => .ok (e.map Prod.fst)
  | .mkf e f =>
    if f.entries.isEmpty then .ok (e.map Prod.fst)
    else
      match keysE f with
      | .error err => .error err
      | .ok _ => .error .typeError

/-- Python `sorted` (a stable sort) with a boolean `<=`; `insertionSort`
places an element before the later-listed elements it ties with, exactly as
a stable sort keyed on a strict `<` does. -/
def pysort {α : Type} (le : α → α → Bool) (l : List α) : List α :=
  l.insertionSort (fun a b => le a b = true)

/-! ## Registration and aliasing -/

/-- The keyword arguments `add_field` consults, with their Python defaults. -/
structure AddKw where
  units : String := ""
  display_name : Option String := none
  force_override : Bool := false
  particle_type : Bool := false
deriving DecidableEq, Repr

/-- What `add_field` returns: `None` on a completed registration or silent
no-op, or one of the two decorator closures (`create_function`) when
`function is None`. -/
inductive AddRet where
  | noop
  | identityClosure
  | registeringClosure
deriving DecidableEq, Repr

/-- `_sanitize_sampling_type` (source lines 249-295).  `sampling_type` is
typed as a string here, so the `AttributeError`/`TypeError` arm for
non-strings is vacuous; `particle_type` is the truthiness of the deprecated
keyword. -/
def sanitize_sampling_type (sampling_type : String) (particle_type : Bool) :
    Except PyExc String :=
  let s := sampling_type.toLower
  if !(["cell", "particle", "local"].contains s) then .error .valueError
  else if particle_type && s != "particle" then .error .runtimeError
  else .ok s

/-- Fuel bound for the `add_field`/`alias` mutual recursion; in the source
this recursion bottoms out after at most a handful of nested calls. -/
def aliasFuel : Nat := 12

/-- `DerivedField(name, sampling_type, function, **kwargs)` as `add_field`
constructs it. -/
def mkDerived (name : FName) (stype : String) (fn : FuncK) (kw : AddKw) :
    DerivedField :=
  ⟨name, stype, fn, kw.units, kw.display_name⟩

mutual

/-- `add_field` (source lines 297-374).  The identity-already-present no-op
check comes first (`if not override and name in self`), then the decorator
case, then direct registration: a tuple name is stored as given (before any
sanitizing); a bare name is qualified with `"all"` or the default fluid type
and additionally aliased from the bare name, unless the qualified tuple
already exists, in which case the definition is stored under the bare name. -/
def add_field (cfg : Cfg) : Nat → St → FName → Option FuncK → String → AddKw →
    Except PyExc (St × AddRet)
  | 0, _, _, _, _, _ => .error .fuelOut
  | fuel + 1, st, name, function, sampling_type, kw =>
    if !kw.force_override && containsB st.fic name then
      .ok (st, if function.isNone then .identityClosure else .noop)
    else
      match function with
      | none => .ok (st, .registeringClosure)
      | some fn =>
        match name with
        | .pair t n =>
          let df := mkDerived (.pair t n) sampling_type fn kw
          .ok ({st with fic := insertF st.fic (.pair t n) df}, .noop)
        | .bare s =>
          match sanitize_sampling_type sampling_type kw.particle_type with
          | .error e => .error e
          | .ok stype =>
            let ftype := if stype = "particle" then "all" else cfg.default_fluid_type
            if !containsB st.fic (.pair ftype s) then
              let df := mkDerived (.pair ftype s) stype fn kw
              let st2 := {st with fic := insertF st.fic (.pair ftype s) df}
              match alias_field cfg fuel st2 (.bare s) (.pair ftype s) none with
              | .error e => .error e
              | .ok st3 => .ok (st3, .noop)
            else
              let df := mkDerived (.bare s) stype fn kw
              .ok ({st with fic := insertF st.fic (.bare s) df}, .noop)

/-- `alias` (source lines 405-423): a no-op when the source identity is
absent (fallback chain included); otherwise the units default to the unit
system's preferred representation of the source's dimension (the source's
own units when dimensionless), the alias relation is recorded in
`field_aliases`, and a `TranslationFunc` definition is registered through
`add_field`. -/
def alias_field (cfg : Cfg) : Nat → St → FName → FName → Option String →
    Except PyExc St
  | 0, _, _, _, _ => .error .fuelOut
  | fuel + 1, st, alias_name, original_name, unitsArg =>
    if !containsB st.fic original_name then .ok st
    else
      match getItemE st.fic original_name with
      | .error e => .error e
      | .ok od =>
        let units : String :=
          match unitsArg with
          | some u => u
          | none =>
            match cfg.dimOf od.units with
            | some d => cfg.unitSystem d
            | none => od.units
        let st1 := {st with field_aliases := dinsert st.field_aliases alias_name original_name}
        match add_field cfg fuel st1 alias_name (some (.translationFunc original_name))
            od.sampling_type {units := units, display_name := od.display_name} with
        | .error e => .error e
        | .ok (st2, _) => .ok st2

end

/-- `add_output_field` (source lines 401-403): register a passthrough
(`NullFunc`) definition by plain dict assignment. -/
def add_output_field (st : St) (name : FName) (sampling_type : String)
    (units : String) (display_name : Option String) : St :=
  {st with fic := insertF st.fic name ⟨name, sampling_type, .nullFunc, units, display_name⟩}

/-! ## Fluid aliasing setup -/

/-- Python `alias[-2:]` (the whole string when shorter than two characters). -/
def lastTwo (s : String) : String := ⟨s.data.drop (s.data.length - 2)⟩

/-- Python `alias[:-2]`. -/
def dropLast2 (s : String) : String := ⟨s.data.take (s.data.length - 2)⟩

/-- `get_aliases_gallery` (source lines 177-188): on a curvilinear dataset,
collect the declared catalog aliases of every non-particle on-disk field, in
sorted field order; otherwise the gallery is empty. -/
def get_aliases_gallery (cfg : Cfg) : List String :=
  if cfg.curvilinear then
    (pysort pairLeB cfg.field_list).foldl (fun acc field =>
      if cfg.particle_types.contains field.1 then acc
      else
        let args := (dictLast cfg.known_other_fields field.2).getD ("", [], none)
        acc ++ args.2.1) []
  else []

/-- The `to_convert` computation of `setup_fluid_aliases` (source lines
232-239).  Note: the loop over `["x", "y", "z"]` sets `to_convert = False`
and breaks when a sibling `f"{alias[:-2]}_{suffix}"` is missing from the
gallery, but the assignment `to_convert = True` after the loop is
unconditional (line 239 is part of the `else` suite, not a `for ... else`),
so the loop's outcome is discarded: the flag is true for every alias ending
in `_x`/`_y`/`_z`. -/
def to_convert_flag (gallery : List String) (a : String) : Bool :=
  if !(["_x", "_y", "_z"].contains (lastTwo a)) then false
  else
    let siblings_present :=
      ["x", "y", "z"].all (fun sfx => gallery.contains (dropLast2 a ++ "_" ++ sfx))
    let _ := siblings_present
    true

/-- The remap of a declared alias name on a curvilinear dataset (source lines
240-246): when `to_convert`, the `_x`/`_y`/`_z` suffix is replaced by the
first/second/third axis name. -/
def remap_vector_alias (cfg : Cfg) (gallery : List String) (a : String) : String :=
  if to_convert_flag gallery a then
    if lastTwo a = "_x" then dropLast2 a ++ "_" ++ cfg.axis_order.1
    else if lastTwo a = "_y" then dropLast2 a ++ "_" ++ cfg.axis_order.2.1
    else if lastTwo a = "_z" then dropLast2 a ++ "_" ++ cfg.axis_order.2.2
    else a
  else a

/-- The units resolution of `setup_fluid_aliases` (source lines 204-222)
applied to the dataset-override value: a non-string override over a
non-empty catalog default is combined as `f"(({args[0]})*{units})"` (numbers
are rendered here by `toString`, so a Python float such as `2.0` prints
without the trailing `.0` — the string contents are otherwise identical); a
remaining numeric override is made dimensionless, with a warning unless it
equals `1.0`.  A string override never equals `1.0` and is kept as is. -/
def resolve_units (args0 : String) (u : UVal) : String :=
  let u1 : UVal :=
    match u with
    | .unum n =>
      if args0 ≠ "" then .ustr ("((" ++ args0 ++ ")*" ++ toString n ++ ")")
      else .unum n
    | .ustr s => .ustr s
  match u1 with
  | .unum n =>
    if args0 = "" && n ≠ 1 then ""
    else ""
  | .ustr s => s

/-- `setup_fluid_aliases` (source lines 190-247): for every sorted on-disk
non-particle field, resolve units (per-name override, then per-identity
override, then catalog default), register a passthrough definition, and
register every declared catalog alias (remapped on curvilinear geometry)
under `ftype` pointing at the on-disk identity.  The `RuntimeError` raised
on a non-tuple `field_list` entry is vacuous here because `field_list` is
typed as a list of identity pairs. -/
def setup_fluid_aliases (cfg : Cfg) (st : St) (ftype : String := "gas") :
    Except PyExc St :=
  let gallery := get_aliases_gallery cfg
  (pysort pairLeB cfg.field_list).foldlM (fun st field =>
    if cfg.particle_types.contains field.1 then pure st
    else
      let args := (dictLast cfg.known_other_fields field.2).getD ("", [], none)
      let u0 : UVal := (alookup cfg.field_units (.bare field.2)).getD (.ustr args.1)
      let u1 : UVal := (alookup cfg.field_units (.pair field.1 field.2)).getD u0
      let units := resolve_units args.1 u1
      let st1 := add_output_field st (.pair field.1 field.2) "cell" units args.2.2
      args.2.1.foldlM (fun st a =>
        let aRemapped := if cfg.curvilinear then remap_vector_alias cfg gallery a else a
        alias_field cfg aliasFuel st (.pair ftype aRemapped) (.pair field.1 field.2) none)
        st1) st

/-! ## Dependency validator -/

abbrev Deps := List (FName × FieldDetector)

/-- The per-field body of the `check_derived_fields` loop (source lines
469-495): fetch the definition, run dependency discovery; on an error,
re-raise for fields in `_show_field_errors`, re-raise non-`YTFieldNotFound`
errors on a field-test dataset, otherwise drop the field (the debug log is
omitted); on success, drop and record the field as unavailable when
`requested` is not contained in the on-disk field list, else freeze
`requested` as a set and record the dependency. -/
def checkOne (cfg : Cfg) (acc : St × Deps × List FName) (field : FName) :
    Except PyExc (St × Deps × List FName) :=
  let (st, deps, unavailable) := acc
  match getItemE st.fic field with
  | .error e => .error e
  | .ok fi =>
    match cfg.getDeps fi with
    | .error e =>
      if cfg.show_field_errors.contains field then .error e
      else if !e.isFieldNotFound && cfg.field_test_dataset then .error e
      else
        match popE st.fic field with
        | .error e2 => .error e2
        | .ok fic2 => .ok ({st with fic := fic2}, deps, unavailable)
    | .ok fd =>
      if !(fd.requested.all (fun f => cfg.field_list.contains f)) then
        match popE st.fic field with
        | .error e2 => .error e2
        | .ok fic2 => .ok ({st with fic := fic2}, deps, unavailable ++ [field])
      else
        .ok (st, dinsert deps field ⟨fd.requested.dedup⟩, unavailable)

/-- The `for field in fields_to_check` loop of `check_derived_fields`. -/
def checkFields (cfg : Cfg) : List FName → St × Deps × List FName →
    Except PyExc (St × Deps × List FName)
  | [], acc => .ok acc
  | f :: fs, acc =>
    match checkOne cfg acc f with
    | .error e => .error e
    | .ok acc' => checkFields cfg fs acc'

/-- `fields_to_check = fields_to_check or list(self.keys())` (source line
468): `None` and the empty list are both falsy and select all keys. -/
def resolve_fields_to_check (st : St) (ftc : Option (List FName)) :
    Except PyExc (List FName) :=
  match ftc with
  | some l => if l.isEmpty then keysE st.fic else .ok l
  | none => keysE st.fic

/-- `sorted(dfl, key=tupleize)`. -/
def sortTup (l : List FName) : List FName := pysort tupLeB l

/-- The dataset-level wrap at the end of `check_derived_fields`: merge the
dependency keys into the published derived-field list and re-sort it by
`tupleize`. -/
def publishDfl (st : St) (deps : Deps) : St :=
  {st with derived_field_list := sortTup ((st.derived_field_list ++ deps.map Prod.fst).dedup)}

/-- `check_derived_fields` (source lines 465-498).  The final
`set(...).union(...)` has the same elements as the deduplicated
concatenation used here; `sorted` then fixes the published order. -/
def check_derived_fields (cfg : Cfg) (st : St) (ftc : Option (List FName) := none) :
    Except PyExc (St × Deps × List FName) :=
  match resolve_fields_to_check st ftc with
  | .error e => .error e
  | .ok l =>
    match checkFields cfg l (st, [], []) with
    | .error e => .error e
    | .ok (st', deps, unavailable) =>
      .ok (publishDfl st' deps, deps, unavailable)

/-! ## Plugin loader -/

/-- A field plugin: an opaque routine `f(self, ftype, slice_info=...)`
mutating the registry state. -/
abbrev Plugin := St → St

/-- `load_plugin` (source lines 383-391): snapshot `set(self.items())`,
apply the routine, and return the names of the newly introduced (identity,
definition) pairs.  The Python set difference is iterated in an unspecified
order; it is modelled here in post-state insertion order. -/
def load_plugin (p : Plugin) (st : St) : St × List FName :=
  let orig := st.fic.entries
  let st' := p st
  (st', (st'.fic.entries.filter (fun pr => !(decide (pr ∈ orig)))).map Prod.fst)

/-- `find_dependencies` (source lines 393-399). -/
def find_dependencies (cfg : Cfg) (st : St) (loaded : List FName) :
    Except PyExc (St × List FName × List FName) :=
  match check_derived_fields cfg st (some loaded) with
  | .error e => .error e
  | .ok (st1, deps, unavailable) =>
    let st2 := {st1 with
      field_dependencies := dupdate st1.field_dependencies deps,
      derived_field_list := sortTup ((st1.derived_field_list ++ deps.map Prod.fst).dedup)}
    .ok (st2, loaded, unavailable)

/-- One iteration of the `for n in sorted(field_plugins)` loop: fetch the
routine by name, run it, accumulate its newly loaded field names. -/
def loadStep (field_plugins : List (String × Plugin)) (acc : St × List FName)
    (n : String) : St × List FName :=
  match alookup field_plugins n with
  | some p =>
    let r := load_plugin p acc.1
    (r.1, acc.2 ++ r.2)
  | none => acc

/-- `load_all_plugins` (source lines 376-381): apply every plugin routine in
`sorted(field_plugins)` order (lexicographic over the registered names),
accumulate the newly loaded names, and hand them to `find_dependencies` in
one batch.  The `none` arm of the lookup is unreachable: the sorted names
come from the keys of `field_plugins` itself. -/
def load_all_plugins (cfg : Cfg) (field_plugins : List (String × Plugin)) (st : St) :
    Except PyExc (St × List FName × List FName) :=
  let names := pysort strLeB (field_plugins.map Prod.fst)
  let stLoaded := names.foldl (loadStep field_plugins) (st, ([] : List FName))
  find_dependencies cfg stLoaded.1 stLoaded.2

/-! ## Derived notions used by the validator theorems -/

/-- A registry entry whose dependency discovery succeeds with `requested`
contained in the on-disk field list: the entry `check_derived_fields`
keeps. -/
def goodPair (cfg : Cfg) (p : FName × DerivedField) : Bool :=
  match cfg.getDeps p.2 with
  | .ok fd => fd.requested.all (fun f => cfg.field_list.contains f)
  | .error _ => false

/-- A registry entry whose discovery succeeds but requests an identity that
is not on disk: dropped and recorded in `unavailable`. -/
def missingPair (cfg : Cfg) (p : FName × DerivedField) : Bool :=
  match cfg.getDeps p.2 with
  | .ok fd => !(fd.requested.all (fun f => cfg.field_list.contains f))
  | .error _ => false

/-- The dependency record stored for a kept entry (`requested` frozen as a
set). -/
def detOf (cfg : Cfg) (fi : DerivedField) : FieldDetector :=
  match cfg.getDeps fi with
  | .ok fd => ⟨fd.requested.dedup⟩
  | .error _ => ⟨[]⟩

/-- The state after `self.pop(field)` removed `f` from the local dict. -/
def popSt (st : St) (f : FName) : St :=
  {st with fic := st.fic.withEntries (st.fic.entries.eraseP fun p => decide (p.1 = f))}

/-- The accumulator a successful validator loop ends in, when it runs over
the keys of `rest` with the local dict split as `pre ++ rest`: survivors are
the good entries of `rest`, the dependency map gains their records, the
unavailable list gains the missing keys. -/
def charOut (cfg : Cfg) (st : St) (deps : Deps) (unav : List FName)
    (pre rest : List (FName × DerivedField)) : St × Deps × List FName :=
  ({st with fic := st.fic.withEntries (pre ++ rest.filter (goodPair cfg))},
   deps ++ (rest.filter (goodPair cfg)).map (fun p => (p.1, detOf cfg p.2)),
   unav ++ (rest.filter (missingPair cfg)).map Prod.fst)

/-! ## Concrete fixtures used by witnesses and counterexamples -/

/-- A freshly constructed empty registry state. -/
def stEmpty : St := { fic := .mk [] }

/-- A sample stored definition. -/
def dfSample : DerivedField := ⟨.pair "gas" "foo", "cell", .userFunc 0, "g/cm**3", none⟩

/-- A second, different sample definition under the same identity. -/
def dfSampleB : DerivedField := ⟨.pair "gas" "foo", "cell", .userFunc 1, "", none⟩

/-- A minimal Cartesian dataset configuration whose dependency discovery
always succeeds with no requests. -/
def cfgTriv : Cfg := {
  field_list := []
  particle_types := []
  axis_order := ("x", "y", "z")
  curvilinear := false
  dimOf := fun _ => none
  unitSystem := fun s => s
  getDeps := fun _ => .ok ⟨[]⟩ }

/-- The spec's own prefix-vector scenario: a curvilinear dataset with axis
names `[r, theta, phi]` whose catalog declares only the incomplete alias
triple `{foo_x, foo_y}` for the on-disk field `("stream", "foo1")`. -/
def cfgIncompleteTriple : Cfg := {
  field_list := [("stream", "foo1")]
  particle_types := ["io"]
  axis_order := ("r", "theta", "phi")
  curvilinear := true
  known_other_fields := [("foo1", ("", ["foo_x", "foo_y"], none))]
  dimOf := fun _ => none
  unitSystem := fun s => s
  getDeps := fun _ => .ok ⟨[]⟩ }

/-- The same curvilinear dataset with the complete alias triple
`{foo_x, foo_y, foo_z}` declared. -/
def cfgCompleteTriple : Cfg := {
  field_list := [("stream", "foo1")]
  particle_types := ["io"]
  axis_order := ("r", "theta", "phi")
  curvilinear := true
  known_other_fields := [("foo1", ("", ["foo_x", "foo_y", "foo_z"], none))]
  dimOf := fun _ => none
  unitSystem := fun s => s
  getDeps := fun _ => .ok ⟨[]⟩ }

/-- A configuration whose dependency discovery always raises
`YTFieldNotFound`, on a dataset with one on-disk field. -/
def cfgNotFound : Cfg := {
  field_list := [("gas", "density")]
  particle_types := []
  axis_order := ("x", "y", "z")
  curvilinear := false
  dimOf := fun _ => none
  unitSystem := fun s => s
  getDeps := fun _ => .error (.ytFieldNotFound (.pair "gas" "oops")) }

/-- A registry holding the single derived field `("gas", "foo")`. -/
def stOneFoo : St := { fic := .mk [(.pair "gas" "foo", dfSample)] }

/-- A satisfiable derived field. -/
def dfGood : DerivedField := ⟨.pair "gas" "good", "cell", .userFunc 0, "", none⟩

/-- A derived field requesting an identity that is not on disk. -/
def dfBad : DerivedField := ⟨.pair "gas" "bad", "cell", .userFunc 1, "", none⟩

/-- A dataset with one on-disk field where `("gas", "bad")` requests a
missing identity and every other field requests the on-disk one. -/
def cfgMixed : Cfg := {
  field_list := [("gas", "density")]
  particle_types := []
  axis_order := ("x", "y", "z")
  curvilinear := false
  dimOf := fun _ => none
  unitSystem := fun s => s
  getDeps := fun df =>
    if df.name = .pair "gas" "bad" then .ok ⟨[("gas", "nope")]⟩
    else .ok ⟨[("gas", "density")]⟩ }

/-- A registry holding `("gas", "good")` and `("gas", "bad")`. -/
def stTwo : St := { fic := .mk [(.pair "gas" "good", dfGood), (.pair "gas" "bad", dfBad)] }

/-- The state the validation run leaves `stTwo` in: `("gas", "bad")` pruned,
the published derived-field list rebuilt. -/
def stTwoPruned : St :=
  { fic := .mk [(.pair "gas" "good", dfGood)], derived_field_list := [.pair "gas" "good"] }

/-- The dependency map the validation run on `stTwo` returns. -/
def depsTwo : Deps := [(.pair "gas" "good", ⟨[("gas", "density")]⟩)]

/-- A plugin routine that registers nothing. -/
def pluginId : Plugin := fun st => st

/-! ## Order lemmas -/

theorem chListLt_irrefl (l : List Char) : chListLt l l = false := by
  induction l with
  | nil => rfl
  | cons a as ih => simp [chListLt, ih]

theorem chListLt_trans {a b c : List Char} (h1 : chListLt a b = true)
    (h2 : chListLt b c = true) : chListLt a c = true := by
  induction a generalizing b c with
  | nil =>
    cases b with
    | nil => simp [chListLt] at h1
    | cons y ys =>
      cases c with
      | nil => simp [chListLt] at h2
      | cons z zs => rfl
  | cons x xs ih =>
    cases b with
    | nil => simp [chListLt] at h1
    | cons y ys =>
      cases c with
      | nil => simp [chListLt] at h2
      | cons z zs =>
        simp only [chListLt] at h1 h2 ⊢
        by_cases hxy : x.toNat < y.toNat
        · by_cases hyz : y.toNat < z.toNat
          · simp [Nat.lt_trans hxy hyz]
          · simp only [hyz, if_false] at h2
            by_cases hyz' : y.toNat = z.toNat
            · simp [hyz' ▸ hxy]
            · simp [hyz'] at h2
        · simp only [hxy, if_false] at h1
          by_cases hxy' : x.toNat = y.toNat
          · simp only [hxy', if_true] at h1
            by_cases hyz : y.toNat < z.toNat
            · simp [hxy' ▸ hyz]
            · simp only [hyz, if_false] at h2
              by_cases hyz' : y.toNat = z.toNat
              · have hxz : x.toNat = z.toNat := hxy'.trans hyz'
                simp only [hyz', if_true] at h2
                simp [hxz, Nat.lt_irrefl, ih h1 h2]
              · simp [hyz'] at h2
          · simp [hxy'] at h1

theorem chListLt_connex {a b : List Char} (h1 : chListLt a b = false)
    (h2 : chListLt b a = false) : a = b := by
  induction a generalizing b with
  | nil =>
    cases b with
    | nil => rfl
    | cons y ys => simp [chListLt] at h1
  | cons x xs ih =>
    cases b with
    | nil => simp [chListLt] at h2
    | cons y ys =>
      simp only [chListLt] at h1 h2
      by_cases hxy : x.toNat < y.toNat
      · simp [hxy] at h1
      · by_cases hyx : y.toNat < x.toNat
        · simp [hyx] at h2
        · have hx : x.toNat = y.toNat :=
            Nat.le_antisymm (Nat.le_of_not_lt hyx) (Nat.le_of_not_lt hxy)
          rw [if_neg hxy, if_pos hx] at h1
          rw [if_neg hyx, if_pos hx.symm] at h2
          have hchar : x = y := Char.ext (UInt32.toNat.inj hx)
          rw [hchar, ih h1 h2]

theorem strLtB_irrefl (a : String) : strLtB a a = false := chListLt_irrefl _

theorem strLtB_trans {a b c : String} (h1 : strLtB a b = true)
    (h2 : strLtB b c = true) : strLtB a c = true := chListLt_trans h1 h2

theorem strLtB_connex {a b : String} (h1 : strLtB a b = false)
    (h2 : strLtB b a = false) : a = b := by
  have h : a.data = b.data := chListLt_connex h1 h2
  cases a; cases b
  exact congrArg String.mk (by simpa using h)

theorem pairLtB_irrefl (a : String × String) : pairLtB a a = false := by
  simp [pairLtB, strLtB_irrefl]

theorem pairLtB_trans {a b c : String × String} (h1 : pairLtB a b = true)
    (h2 : pairLtB b c = true) : pairLtB a c = true := by
  simp only [pairLtB, Bool.or_eq_true, Bool.and_eq_true, decide_eq_true_eq] at h1 h2 ⊢
  rcases h1 with h1 | ⟨he1, h1⟩
  · rcases h2 with h2 | ⟨he2, h2⟩
    · exact Or.inl (strLtB_trans h1 h2)
    · exact Or.inl (he2 ▸ h1)
  · rcases h2 with h2 | ⟨he2, h2⟩
    · exact Or.inl (he1 ▸ h2)
    · exact Or.inr ⟨he1.trans he2, strLtB_trans h1 h2⟩

theorem pairLtB_connex {a b : String × String} (h1 : pairLtB a b = false)
    (h2 : pairLtB b a = false) : a = b := by
  simp only [pairLtB, Bool.or_eq_false_iff, Bool.and_eq_false_iff,
    decide_eq_false_iff_not] at h1 h2
  obtain ⟨ha1, ha2⟩ := h1
  obtain ⟨hb1, hb2⟩ := h2
  have he1 : a.1 = b.1 := strLtB_connex ha1 hb1
  have he2 : a.2 = b.2 := by
    rcases ha2 with h | h
    · exact absurd he1 h
    · rcases hb2 with h' | h'
      · exact absurd he1.symm h'
      · exact strLtB_connex h h'
  exact Prod.ext he1 he2

section LeOf

variable {α : Type} {lt : α → α → Bool}

theorem leOf_trans (hconn : ∀ {a b : α}, lt a b = false → lt b a = false → a = b)
    (htr : ∀ {a b c : α}, lt a b = true → lt b c = true → lt a c = true)
    {a b c : α} (h1 : leOf lt a b = true) (h2 : leOf lt b c = true) :
    leOf lt a c = true := by
  simp only [leOf, Bool.not_eq_true'] at h1 h2 ⊢
  by_cases h : lt c a = true
  · cases hbc : lt b c with
    | true => exact absurd (htr hbc h) (by simp [h1])
    | false =>
      have hbceq : b = c := hconn hbc h2
      rw [← hbceq] at h
      simp [h] at h1
  · simpa using h

theorem leOf_total (hirr : ∀ a : α, lt a a = false)
    (htr : ∀ {a b c : α}, lt a b = true → lt b c = true → lt a c = true)
    (a b : α) : (leOf lt a b || leOf lt b a) = true := by
  simp only [leOf, Bool.or_eq_true, Bool.not_eq_true']
  by_cases h1 : lt b a = true
  · right
    cases h2 : lt a b with
    | true => exact absurd (htr h2 h1) (by simp [hirr])
    | false => rfl
  · left; simpa using h1

theorem leOf_antisymm (hconn : ∀ {a b : α}, lt a b = false → lt b a = false → a = b)
    {a b : α} (h1 : leOf lt a b = true) (h2 : leOf lt b a = true) : a = b := by
  simp only [leOf, Bool.not_eq_true'] at h1 h2
  exact hconn h2 h1

end LeOf

theorem strLeB_trans {a b c : String} (h1 : strLeB a b = true)
    (h2 : strLeB b c = true) : strLeB a c = true :=
  leOf_trans (fun h h' => strLtB_connex h h') (fun h h' => strLtB_trans h h') h1 h2

theorem strLeB_total (a b : String) : (strLeB a b || strLeB b a) = true :=
  leOf_total strLtB_irrefl (fun h h' => strLtB_trans h h') a b

theorem strLeB_antisymm {a b : String} (h1 : strLeB a b = true)
    (h2 : strLeB b a = true) : a = b :=
  leOf_antisymm (fun h h' => strLtB_connex h h') h1 h2

theorem pairLeB_trans {a b c : String × String} (h1 : pairLeB a b = true)
    (h2 : pairLeB b c = true) : pairLeB a c = true :=
  leOf_trans (fun h h' => pairLtB_connex h h') (fun h h' => pairLtB_trans h h') h1 h2

theorem pairLeB_total (a b : String × String) : (pairLeB a b || pairLeB b a) = true :=
  leOf_total pairLtB_irrefl (fun h h' => pairLtB_trans h h') a b

theorem pairLeB_antisymm {a b : String × String} (h1 : pairLeB a b = true)
    (h2 : pairLeB b a = true) : a = b :=
  leOf_antisymm (fun h h' => pairLtB_connex h h') h1 h2

/-! ## Association-list lemmas -/

section AListLemmas

variable {α β : Type} [DecidableEq α]

theorem alookup_eq_none {m : List (α × β)} {k : α} :
    alookup m k = none ↔ k ∉ m.map Prod.fst := by
  induction m with
  | nil => simp [alookup]
  | cons p ps ih =>
    by_cases h : p.1 = k
    · simp [alookup, h]
    · simp only [alookup, h, if_false, List.map_cons, List.mem_cons, ih]
      constructor
      · rintro h1 (h2 | h2)
        · exact h h2.symm
        · exact h1 h2
      · intro h1 h2
        exact h1 (Or.inr h2)

theorem alookup_some_mem {m : List (α × β)} {k : α} {v : β}
    (h : alookup m k = some v) : (k, v) ∈ m := by
  induction m with
  | nil => simp [alookup] at h
  | cons p ps ih =>
    by_cases hp : p.1 = k
    · simp only [alookup, hp, if_true, Option.some.injEq] at h
      exact List.mem_cons.mpr (Or.inl (by rw [← hp, ← h]))
    · simp only [alookup, hp, if_false] at h
      exact List.mem_cons_of_mem _ (ih h)

theorem mem_alookup_of_nodupkeys {m : List (α × β)} {k : α} {v : β}
    (hnd : (m.map Prod.fst).Nodup) (h : (k, v) ∈ m) : alookup m k = some v := by
  induction m with
  | nil => simp at h
  | cons p ps ih =>
    simp only [List.map_cons, List.nodup_cons] at hnd
    rcases List.mem_cons.mp h with h | h
    · rw [← h]
      simp [alookup]
    · have hk : k ∈ ps.map Prod.fst := List.mem_map.mpr ⟨(k, v), h, rfl⟩
      have hp : ¬ p.1 = k := fun he => hnd.1 (he ▸ hk)
      simp [alookup, hp, ih hnd.2 h]

theorem key_mem_iff_any {m : List (α × β)} {k : α} :
    (m.any fun p => decide (p.1 = k)) = true ↔ k ∈ m.map Prod.fst := by
  induction m with
  | nil => simp
  | cons p ps ih =>
    simp only [List.any_cons, Bool.or_eq_true, decide_eq_true_eq, List.map_cons,
      List.mem_cons, ih]
    constructor
    · rintro (h1 | h1)
      · exact Or.inl h1.symm
      · exact Or.inr h1
    · rintro (h1 | h1)
      · exact Or.inl h1.symm
      · exact Or.inr h1

theorem any_key_of_alookup {m : List (α × β)} {k : α} {v : β}
    (h : alookup m k = some v) : (m.any fun p => decide (p.1 = k)) = true :=
  key_mem_iff_any.mpr (List.mem_map.mpr ⟨(k, v), alookup_some_mem h, rfl⟩)

theorem alookup_eraseP_ne {m : List (α × β)} {k g : α} (h : k ≠ g) :
    alookup (m.eraseP fun p => decide (p.1 = g)) k = alookup m k := by
  induction m with
  | nil => rfl
  | cons p ps ih =>
    by_cases hp : p.1 = g
    · have hpk : ¬ p.1 = k := fun he => h (he ▸ hp)
      simp [List.eraseP_cons, hp, alookup, hpk, Ne.symm h]
    · by_cases hk : p.1 = k <;> simp [List.eraseP_cons, hp, alookup, hk, ih, h]

theorem alookup_eraseP_self {m : List (α × β)} {g : α}
    (hnd : (m.map Prod.fst).Nodup) :
    alookup (m.eraseP fun p => decide (p.1 = g)) g = none := by
  induction m with
  | nil => rfl
  | cons p ps ih =>
    simp only [List.map_cons, List.nodup_cons] at hnd
    by_cases hp : p.1 = g
    · simp only [List.eraseP_cons, hp, decide_eq_true_eq, if_true, cond_true]
      exact alookup_eq_none.mpr (hp ▸ hnd.1)
    · simp only [List.eraseP_cons, hp, decide_eq_false hp, cond_false]
      simp [alookup, hp, ih hnd.2]

theorem alookup_map_replace {m : List (α × β)} {k : α} {v : β}
    (h : k ∈ m.map Prod.fst) :
    alookup (m.map fun p => if p.1 = k then (k, v) else p) k = some v := by
  induction m with
  | nil => simp at h
  | cons p ps ih =>
    by_cases hp : p.1 = k
    · simp [alookup, hp]
    · simp only [List.map_cons, List.mem_cons] at h
      rcases h with h | h
      · exact absurd h.symm hp
      · simp only [List.map_cons, hp, if_false]
        simp [alookup, hp, ih h]

theorem alookup_append_single {m : List (α × β)} {k : α} {v : β}
    (h : k ∉ m.map Prod.fst) : alookup (m ++ [(k, v)]) k = some v := by
  induction m with
  | nil => simp [alookup]
  | cons p ps ih =>
    simp only [List.map_cons, List.mem_cons, not_or] at h
    have hp : ¬ p.1 = k := fun he => h.1 he.symm
    simp only [List.cons_append, alookup, hp, if_false]
    exact ih h.2

theorem alookup_dinsert_self {m : List (α × β)} {k : α} {v : β} :
    alookup (dinsert m k v) k = some v := by
  unfold dinsert
  by_cases h : (m.any fun p => decide (p.1 = k)) = true
  · simp only [h, if_true]
    exact alookup_map_replace (key_mem_iff_any.mp h)
  · simp only [h, if_false]
    exact alookup_append_single (fun hm => h (key_mem_iff_any.mpr hm))

theorem keys_dinsert {m : List (α × β)} {k : α} {v : β} :
    (dinsert m k v).map Prod.fst =
      if k ∈ m.map Prod.fst then m.map Prod.fst else m.map Prod.fst ++ [k] := by
  unfold dinsert
  by_cases h : (m.any fun p => decide (p.1 = k)) = true
  · have hk := key_mem_iff_any.mp h
    simp only [h, if_true, hk, List.map_map]
    exact List.map_congr_left (fun p _ => by by_cases hp : p.1 = k <;> simp [hp])
  · have hk : k ∉ m.map Prod.fst := fun hm => h (key_mem_iff_any.mpr hm)
    simp [h, hk]

theorem mem_keys_dinsert {m : List (α × β)} {k j : α} {v : β} :
    j ∈ (dinsert m k v).map Prod.fst ↔ j = k ∨ j ∈ m.map Prod.fst := by
  rw [keys_dinsert]
  by_cases h : k ∈ m.map Prod.fst
  · simp only [h, if_true]
    constructor
    · exact Or.inr
    · rintro (h1 | h1)
      · exact h1 ▸ h
      · exact h1
  · simp only [h, if_false, List.mem_append, List.mem_singleton]
    exact or_comm

theorem dinsert_of_key_not_mem {m : List (α × β)} {k : α} {v : β}
    (h : k ∉ m.map Prod.fst) : dinsert m k v = m ++ [(k, v)] := by
  unfold dinsert
  have hany : ¬ (m.any fun p => decide (p.1 = k)) = true :=
    fun ha => h (key_mem_iff_any.mp ha)
  simp [hany]

theorem alookup_append_cons {pre rest : List (α × β)} {g : α} {v : β}
    (h : g ∉ pre.map Prod.fst) :
    alookup (pre ++ (g, v) :: rest) g = some v := by
  induction pre with
  | nil => simp [alookup]
  | cons p ps ih =>
    simp only [List.map_cons, List.mem_cons, not_or] at h
    have hp : ¬ p.1 = g := fun he => h.1 he.symm
    simp only [List.cons_append, alookup, hp, if_false]
    exact ih h.2

theorem eraseP_append_cons {pre rest : List (α × β)} {g : α} {v : β}
    (h : g ∉ pre.map Prod.fst) :
    ((pre ++ (g, v) :: rest).eraseP fun p => decide (p.1 = g)) = pre ++ rest := by
  induction pre with
  | nil => simp [List.eraseP_cons]
  | cons p ps ih =>
    simp only [List.map_cons, List.mem_cons, not_or] at h
    have hp : ¬ p.1 = g := fun he => h.1 he.symm
    simp only [List.cons_append, List.eraseP_cons, decide_eq_false hp, cond_false]
    rw [ih h.2]

theorem alookup_perm {l1 l2 : List (α × β)} (hp : l1.Perm l2)
    (hnd : (l1.map Prod.fst).Nodup) (k : α) : alookup l1 k = alookup l2 k := by
  cases h1 : alookup l1 k with
  | some v =>
    have hm : (k, v) ∈ l2 := hp.mem_iff.mp (alookup_some_mem h1)
    have hnd2 : (l2.map Prod.fst).Nodup := ((hp.map Prod.fst).nodup_iff).mp hnd
    exact (mem_alookup_of_nodupkeys hnd2 hm).symm
  | none =>
    have hk : k ∉ l1.map Prod.fst := alookup_eq_none.mp h1
    have hk2 : k ∉ l2.map Prod.fst := fun hm => hk ((hp.map Prod.fst).mem_iff.mpr hm)
    exact (alookup_eq_none.mpr hk2).symm

end AListLemmas

/-! ## Container lemmas -/

theorem getItemE_of_alookup {r : FIC} {k : FName} {v : DerivedField}
    (h : alookup r.entries k = some v) : getItemE r k = .ok v := by
  cases r with
  | mk e =>
    simp only [FIC.entries] at h
    simp [getItemE, h]
  | mkf e f =>
    simp only [FIC.entries] at h
    simp [getItemE, h]

theorem containsB_of_alookup {r : FIC} {k : FName} {v : DerivedField}
    (h : alookup r.entries k = some v) : containsB r k = true := by
  cases r with
  | mk e =>
    simp only [FIC.entries] at h
    simp [containsB, any_key_of_alookup h]
  | mkf e f =>
    simp only [FIC.entries] at h
    simp [containsB, any_key_of_alookup h]

theorem popE_of_alookup {r : FIC} {k : FName} {v : DerivedField}
    (h : alookup r.entries k = some v) :
    popE r k = .ok (r.withEntries (r.entries.eraseP fun p => decide (p.1 = k))) := by
  have ha := any_key_of_alookup h
  simp [popE, ha]

theorem withEntries_entries {r : FIC} {e : List (FName × DerivedField)} :
    (r.withEntries e).entries = e := by
  cases r <;> rfl

theorem withEntries_fallback {r : FIC} {e : List (FName × DerivedField)} :
    (r.withEntries e).fallback = r.fallback := by
  cases r <;> rfl

/-! ## Claim C5 — fallback shadowing -/

/-- C5: for a registry whose local dict and whose fallback `r2` both hold a
definition for `X`, `__getitem__` returns the local definition (never
`r2`'s) and `__contains__` is true: the fallback is only reached from
`__missing__`, which fires on a local miss. -/
theorem fallback_shadowing (e1 : List (FName × DerivedField)) (r2 : FIC)
    (X : FName) (d1 d2 : DerivedField)
    (h1 : alookup e1 X = some d1) (h2 : alookup r2.entries X = some d2) :
    getItemE (.mkf e1 r2) X = .ok d1 ∧ containsB (.mkf e1 r2) X = true := by
  have hd2 := h2
  refine ⟨?_, ?_⟩
  · simp [getItemE, h1]
  · simp [containsB, any_key_of_alookup h1]

/-- Witness for C5: shadowing observed on a concrete two-registry chain
holding different definitions of the same identity. -/
theorem fallback_shadowing_witness :
    getItemE (.mkf [(.pair "gas" "foo", dfSample)] (.mk [(.pair "gas" "foo", dfSampleB)]))
        (.pair "gas" "foo") = .ok dfSample
    ∧ containsB (.mkf [(.pair "gas" "foo", dfSample)] (.mk [(.pair "gas" "foo", dfSampleB)]))
        (.pair "gas" "foo") = true :=
  fallback_shadowing _ (.mk [(.pair "gas" "foo", dfSampleB)]) _ dfSample dfSampleB rfl rfl

/-! ## Claim C7 — missing lookup raises carrying the identity -/

/-- C7: looking up an identity absent from the registry and from its entire
fallback chain fails with the `__missing__` error `KeyError(f"No field named
{key}")` — the spec's *FieldNotFound* — carrying the identity; `getItemE`
returns it to the caller unconditionally. -/
theorem lookup_missing_raises : ∀ (r : FIC) (k : FName),
    containsB r k = false → getItemE r k = .error (.keyError k)
  | .mk e, k, h => by
    cases hl : alookup e k with
    | some v =>
      exfalso
      have := any_key_of_alookup hl
      simp [containsB, this] at h
    | none => simp [getItemE, hl]
  | .mkf e f, k, h => by
    cases hl : alookup e k with
    | some v =>
      exfalso
      have : (e.any fun p => decide (p.1 = k)) = true := any_key_of_alookup hl
      simp [containsB, this] at h
    | none =>
      have ha : ¬ (e.any fun p => decide (p.1 = k)) = true :=
        fun ht => (alookup_eq_none.mp hl) (key_mem_iff_any.mp ht)
      have hf : containsB f k = false := by
        simp only [containsB, ha, if_false] at h
        exact h
      simp only [getItemE, hl]
      exact lookup_missing_raises f k hf

/-- Witness for C7 on a concrete chain of two registries, neither holding
the identity. -/
theorem lookup_missing_raises_witness :
    getItemE (.mkf [(.pair "gas" "foo", dfSample)] (.mk []))
        (.pair "gas" "nope") = .error (.keyError (.pair "gas" "nope")) :=
  lookup_missing_raises _ _ (by decide)

/-! ## Claim C6 — `keys` with a non-empty fallback raises `TypeError` -/

/-- C6 (code bug): with a non-empty fallback registry, `keys` does not
return the local identities followed by the fallback's — the statement
`keys += list(self.fallback.keys())` raises `TypeError`, because the
`dict_keys` view returned by `dict.keys(self)` does not support `+`.
Evaluated here at a concrete one-entry registry with a one-entry
fallback. -/
theorem keys_with_fallback_raises :
    keysE (.mkf [(.pair "gas" "foo", dfSample)] (.mk [(.pair "io" "x", dfSampleB)]))
      = .error .typeError := by rfl

/-! ## Claim C10 — empty check list selects everything -/

/-- C10: an empty `fields_to_check` list is falsy, so
`fields_to_check or list(self.keys())` selects every currently registered
key: a `check_derived_fields([])` run (as a `load_all_plugins` in which no
plugin introduced a field produces) is identical to the default
check-everything call, not a no-op. -/
theorem empty_check_list_checks_all (cfg : Cfg) (st : St) :
    check_derived_fields cfg st (some []) = check_derived_fields cfg st none
    ∧ resolve_fields_to_check st (some []) = keysE st.fic := by
  constructor
  · simp [check_derived_fields, resolve_fields_to_check]
  · simp [resolve_fields_to_check]

/-! ## Claim C1 — curvilinear vector-alias remap gating (code bug) -/

/-- C1 (code bug): on the spec's own scenario — a curvilinear dataset with
axis names `[r, theta, phi]` and catalog aliases `{foo_x, foo_y}`, an
incomplete triple — `setup_fluid_aliases` registers the remapped aliases
`(gas, foo_r)` and `(gas, foo_theta)` and never registers `(gas, foo_x)`:
the all-three-siblings gate is dead code, because the `to_convert = True`
assignment after the sibling loop is unconditional.  With the complete
triple `{foo_x, foo_y, foo_z}` all three are remapped, as the claim says. -/
theorem incomplete_triple_still_remapped :
    (setup_fluid_aliases cfgIncompleteTriple stEmpty "gas").toOption.map
        (fun st => st.field_aliases.map Prod.fst)
      = some [FName.pair "gas" "foo_r", FName.pair "gas" "foo_theta"]
    ∧ FName.pair "gas" "foo_x"
        ∉ [FName.pair "gas" "foo_r", FName.pair "gas" "foo_theta"]
    ∧ (setup_fluid_aliases cfgCompleteTriple stEmpty "gas").toOption.map
        (fun st => st.field_aliases.map Prod.fst)
      = some [FName.pair "gas" "foo_r", FName.pair "gas" "foo_theta",
              FName.pair "gas" "foo_phi"] := by
  refine ⟨rfl, by decide, rfl⟩

/-! ## Claim C4 — error policy during dependency discovery -/

/-- C4 counterexample: with dependency discovery raising `YTFieldNotFound`
on a registry holding only `("gas", "foo")` (empty strict set, no field-test
flag), the validation run succeeds and drops the field, but the returned
unavailable list is empty — the claim's "its name recorded in the
unavailable list" is false at this input. -/
theorem notfound_drop_not_recorded :
    check_derived_fields cfgNotFound stOneFoo none
      = .ok ({ fic := .mk [] }, [], [])
    ∧ ¬ (∃ stR deps unav, check_derived_fields cfgNotFound stOneFoo none
          = .ok (stR, deps, unav) ∧ FName.pair "gas" "foo" ∈ unav) := by
  refine ⟨rfl, ?_⟩
  rintro ⟨stR, deps, unav, heq, hmem⟩
  have h0 : check_derived_fields cfgNotFound stOneFoo none
      = .ok ({ fic := .mk [] }, [], []) := rfl
  rw [h0] at heq
  have hs := Except.ok.inj heq
  cases hs
  exact List.not_mem_nil _ hmem

/-- Case analysis of the except-branch of `check_derived_fields` (source
lines 471-485), shared by the error-policy claim and the loop lemmas. -/
theorem checkOne_error_aux (cfg : Cfg) (st : St) (deps : Deps)
    (unav : List FName) (f : FName) (fi : DerivedField) (e : PyExc)
    (hlook : alookup st.fic.entries f = some fi)
    (herr : cfg.getDeps fi = .error e) :
    (cfg.show_field_errors.contains f = true →
      checkOne cfg (st, deps, unav) f = .error e)
    ∧ (cfg.show_field_errors.contains f = false → e.isFieldNotFound = true →
      checkOne cfg (st, deps, unav) f = .ok (popSt st f, deps, unav))
    ∧ (cfg.show_field_errors.contains f = false → e.isFieldNotFound = false →
        cfg.field_test_dataset = true →
      checkOne cfg (st, deps, unav) f = .error e)
    ∧ (cfg.show_field_errors.contains f = false → e.isFieldNotFound = false →
        cfg.field_test_dataset = false →
      checkOne cfg (st, deps, unav) f = .ok (popSt st f, deps, unav)) := by
  refine ⟨?_, ?_, ?_, ?_⟩
  · intro hshow
    have hs : f ∈ cfg.show_field_errors := by simpa using hshow
    simp [checkOne, getItemE_of_alookup hlook, herr, hs]
  · intro hshow hnf
    have hs : f ∉ cfg.show_field_errors := by simpa using hshow
    simp [checkOne, getItemE_of_alookup hlook, herr, hs, hnf,
      popE_of_alookup hlook, popSt]
  · intro hshow hnf htest
    have hs : f ∉ cfg.show_field_errors := by simpa using hshow
    simp [checkOne, getItemE_of_alookup hlook, herr, hs, hnf, htest]
  · intro hshow hnf htest
    have hs : f ∉ cfg.show_field_errors := by simpa using hshow
    simp [checkOne, getItemE_of_alookup hlook, herr, hs, hnf, htest,
      popE_of_alookup hlook, popSt]

/-- C4 (amended): on an error raised during dependency discovery, the
per-field body of `check_derived_fields` behaves as follows: a field in
`_show_field_errors` re-raises any error, field-not-found included; outside
that set, `YTFieldNotFound` drops the field silently with nothing appended
to the unavailable list; any other error re-raises on a field-test dataset
and is otherwise suppressed (logged at debug) with the field dropped, again
without an unavailable entry. -/
theorem discovery_error_policy (cfg : Cfg) (st : St) (deps : Deps)
    (unav : List FName) (f : FName) (fi : DerivedField) (e : PyExc)
    (hlook : alookup st.fic.entries f = some fi)
    (herr : cfg.getDeps fi = .error e) :
    (cfg.show_field_errors.contains f = true →
      checkOne cfg (st, deps, unav) f = .error e)
    ∧ (cfg.show_field_errors.contains f = false → e.isFieldNotFound = true →
      checkOne cfg (st, deps, unav) f = .ok (popSt st f, deps, unav))
    ∧ (cfg.show_field_errors.contains f = false → e.isFieldNotFound = false →
        cfg.field_test_dataset = true →
      checkOne cfg (st, deps, unav) f = .error e)
    ∧ (cfg.show_field_errors.contains f = false → e.isFieldNotFound = false →
        cfg.field_test_dataset = false →
      checkOne cfg (st, deps, unav) f = .ok (popSt st f, deps, unav)) :=
  checkOne_error_aux cfg st deps unav f fi e hlook herr

/-- Witness for the amended C4 at a concrete input: the lenient
field-not-found case drops `("gas", "foo")` without recording it. -/
theorem discovery_error_policy_witness :
    checkOne cfgNotFound (stOneFoo, [], []) (.pair "gas" "foo")
      = .ok (popSt stOneFoo (.pair "gas" "foo"), [], []) :=
  (discovery_error_policy cfgNotFound stOneFoo [] [] (.pair "gas" "foo") dfSample
    (.ytFieldNotFound (.pair "gas" "oops")) rfl rfl).2.1 rfl rfl

/-! ## Claim C8 — double registration and the override flag -/

/-- C8: calling `add_field` twice with the same tuple identity: with
`force_override` unset the second call is a silent no-op and the stored
definition is untouched (the returned state is the input state); with
`force_override=True` the second call replaces the stored definition with
one built from the new arguments. -/
theorem add_field_override_policy (cfg : Cfg) (fuel : Nat) (st : St)
    (t n : String) (d : DerivedField) (fn2 : FuncK) (stype2 : String)
    (kw1 kw2 : AddKw)
    (hmem : alookup st.fic.entries (.pair t n) = some d)
    (h1 : kw1.force_override = false) (h2 : kw2.force_override = true) :
    add_field cfg (fuel + 1) st (.pair t n) (some fn2) stype2 kw1 = .ok (st, .noop)
    ∧ ∃ st2, add_field cfg (fuel + 1) st (.pair t n) (some fn2) stype2 kw2
          = .ok (st2, .noop)
        ∧ alookup st2.fic.entries (.pair t n)
            = some (mkDerived (.pair t n) stype2 fn2 kw2)
        ∧ st2.field_aliases = st.field_aliases := by
  constructor
  · simp [add_field, h1, containsB_of_alookup hmem]
  · refine ⟨{st with fic := insertF st.fic (.pair t n) (mkDerived (.pair t n) stype2 fn2 kw2)}, ?_, ?_, rfl⟩
    · simp [add_field, h2, mkDerived]
    · simp [insertF, withEntries_entries, alookup_dinsert_self, mkDerived]

/-- Witness for C8: both calls evaluated on a concrete one-entry registry. -/
theorem add_field_override_policy_witness :
    add_field cfgTriv 1 stOneFoo (.pair "gas" "foo") (some (.userFunc 9)) "cell"
        { force_override := false } = .ok (stOneFoo, .noop)
    ∧ ∃ st2, add_field cfgTriv 1 stOneFoo (.pair "gas" "foo") (some (.userFunc 9)) "cell"
          { force_override := true } = .ok (st2, .noop)
        ∧ alookup st2.fic.entries (.pair "gas" "foo")
            = some (mkDerived (.pair "gas" "foo") "cell" (.userFunc 9) { force_override := true })
        ∧ st2.field_aliases = stOneFoo.field_aliases :=
  add_field_override_policy cfgTriv 0 stOneFoo "gas" "foo" dfSample (.userFunc 9)
    "cell" { force_override := false } { force_override := true } rfl rfl rfl

/-! ## Step and frame lemmas for the validator loop -/

theorem popE_ok {r r2 : FIC} {k : FName} (h : popE r k = .ok r2) :
    r2 = r.withEntries (r.entries.eraseP fun p => decide (p.1 = k)) := by
  unfold popE at h
  split at h
  · exact (Except.ok.inj h).symm
  · cases h

/-- Everything a single successful `checkOne` step can do to the
accumulator. -/
theorem checkOne_ok_cases {cfg : Cfg} {acc out : St × Deps × List FName}
    {g : FName} (h : checkOne cfg acc g = .ok out) :
    (out.1.fic.entries = acc.1.fic.entries ∨
      out.1.fic.entries = acc.1.fic.entries.eraseP fun p => decide (p.1 = g))
    ∧ out.1.fic.fallback = acc.1.fic.fallback
    ∧ out.1.field_aliases = acc.1.field_aliases
    ∧ out.1.derived_field_list = acc.1.derived_field_list
    ∧ out.1.field_dependencies = acc.1.field_dependencies
    ∧ (out.2.1 = acc.2.1 ∨ ∃ d, out.2.1 = dinsert acc.2.1 g d)
    ∧ (out.2.2 = acc.2.2 ∨ out.2.2 = acc.2.2 ++ [g]) := by
  obtain ⟨st, deps, unav⟩ := acc
  simp only [checkOne] at h
  split at h
  · cases h
  case _ fi hget =>
    split at h
    case _ e herr =>
      split at h
      · cases h
      · split at h
        · cases h
        · split at h
          · cases h
          case _ fic2 hpop =>
            obtain rfl := (Except.ok.inj h).symm
            have h2 := popE_ok hpop
            subst h2
            refine ⟨Or.inr ?_, ?_, rfl, rfl, rfl, Or.inl rfl, Or.inl rfl⟩
            · simp [withEntries_entries]
            · simp [withEntries_fallback]
    case _ fd hok =>
      split at h
      · split at h
        · cases h
        case _ fic2 hpop =>
          obtain rfl := (Except.ok.inj h).symm
          have h2 := popE_ok hpop
          subst h2
          refine ⟨Or.inr ?_, ?_, rfl, rfl, rfl, Or.inl rfl, Or.inr rfl⟩
          · simp [withEntries_entries]
          · simp [withEntries_fallback]
      · obtain rfl := (Except.ok.inj h).symm
        exact ⟨Or.inl rfl, rfl, rfl, rfl, rfl, Or.inr ⟨_, rfl⟩, Or.inl rfl⟩

/-- Frame properties of the whole `for field in fields_to_check` loop: only
the local dict (shrinking), the dependency map (growing with checked keys)
and the unavailable list (growing) change, and a field not in the list is
untouched. -/
theorem checkFields_frame {cfg : Cfg} : ∀ (l : List FName)
    (acc out : St × Deps × List FName),
    checkFields cfg l acc = .ok out →
    out.1.fic.fallback = acc.1.fic.fallback
    ∧ out.1.field_aliases = acc.1.field_aliases
    ∧ out.1.derived_field_list = acc.1.derived_field_list
    ∧ out.1.field_dependencies = acc.1.field_dependencies
    ∧ out.1.fic.entries.Sublist acc.1.fic.entries
    ∧ (∃ w, out.2.2 = acc.2.2 ++ w)
    ∧ ∀ k, k ∉ l →
        alookup out.1.fic.entries k = alookup acc.1.fic.entries k
        ∧ (k ∈ out.2.1.map Prod.fst ↔ k ∈ acc.2.1.map Prod.fst)
  | [], acc, out, h => by
    obtain rfl := (Except.ok.inj h)
    exact ⟨rfl, rfl, rfl, rfl, List.Sublist.refl _, ⟨[], by simp⟩,
      fun k _ => ⟨rfl, Iff.rfl⟩⟩
  | f :: fs, acc, out, h => by
    simp only [checkFields] at h
    split at h
    · cases h
    case _ acc1 hstep =>
      obtain ⟨hfb1, hal1, hdfl1, hfd1, hsub1, ⟨w1, hw1⟩, hfr1⟩ :=
        checkFields_frame fs acc1 out h
      obtain ⟨hent0, hfb0, hal0, hdfl0, hfd0, hdep0, hun0⟩ := checkOne_ok_cases hstep
      have hsub0 : acc1.1.fic.entries.Sublist acc.1.fic.entries := by
        rcases hent0 with he | he
        · rw [he]
        · rw [he]
          exact List.eraseP_sublist _
      refine ⟨hfb1.trans hfb0, hal1.trans hal0, hdfl1.trans hdfl0, hfd1.trans hfd0,
        hsub1.trans hsub0, ?_, ?_⟩
      · rcases hun0 with hu | hu
        · exact ⟨w1, by rw [hw1, hu]⟩
        · exact ⟨[f] ++ w1, by rw [hw1, hu]; simp⟩
      · intro k hk
        have hkf : k ≠ f := fun he => hk (he ▸ List.mem_cons_self f fs)
        have hkfs : k ∉ fs := fun hm => hk (List.mem_cons_of_mem f hm)
        obtain ⟨hfr1a, hfr1b⟩ := hfr1 k hkfs
        constructor
        · rw [hfr1a]
          rcases hent0 with he | he
          · rw [he]
          · rw [he, alookup_eraseP_ne hkf]
        · rw [hfr1b]
          rcases hdep0 with hd | ⟨d, hd⟩
          · rw [hd]
          · rw [hd, mem_keys_dinsert]
            constructor
            · rintro (h1 | h1)
              · exact absurd h1 hkf
              · exact h1
            · exact Or.inr

/-- The loop over `l1 ++ l2` is the loop over `l1` followed by the loop
over `l2`. -/
theorem checkFields_append {cfg : Cfg} : ∀ (l1 l2 : List FName)
    (acc : St × Deps × List FName),
    checkFields cfg (l1 ++ l2) acc
      = match checkFields cfg l1 acc with
        | .error e => .error e
        | .ok acc1 => checkFields cfg l2 acc1
  | [], l2, acc => by simp [checkFields]
  | f :: fs, l2, acc => by
    simp only [List.cons_append, checkFields]
    split
    · rfl
    · exact checkFields_append fs l2 _

/-- The step on a looked-up field whose discovery succeeds but whose
`requested` is not contained in the on-disk list: pop, record
unavailable. -/
theorem checkOne_missing_step {cfg : Cfg} {st : St} {deps : Deps}
    {unav : List FName} {f : FName} {fi : DerivedField} {fd : FieldDetector}
    (hlook : alookup st.fic.entries f = some fi)
    (hdeps : cfg.getDeps fi = .ok fd)
    (hmiss : (fd.requested.all fun x => cfg.field_list.contains x) = false) :
    checkOne cfg (st, deps, unav) f = .ok (popSt st f, deps, unav ++ [f]) := by
  simp only [checkOne, getItemE_of_alookup hlook, hdeps, hmiss, Bool.not_false, if_true,
    popE_of_alookup hlook, popSt]

theorem withEntries_self {r : FIC} : r.withEntries r.entries = r := by
  cases r <;> rfl

theorem withEntries_withEntries {r : FIC} {e1 e2 : List (FName × DerivedField)} :
    (r.withEntries e1).withEntries e2 = r.withEntries e2 := by
  cases r <;> rfl

/-- A successful `keys` call returns exactly the local keys (and implies the
fallback, if any, is an empty dict). -/
theorem keysE_ok {r : FIC} {l : List FName} (h : keysE r = .ok l) :
    l = r.entries.map Prod.fst := by
  cases r with
  | mk e => exact (Except.ok.inj h).symm
  | mkf e f =>
    simp only [keysE] at h
    split at h
    · exact (Except.ok.inj h).symm
    · split at h <;> cases h

/-- Replacing the local dict keeps `keys` succeeding. -/
theorem keysE_ok_withEntries {r : FIC} {l : List FName}
    (h : keysE r = .ok l) (e2 : List (FName × DerivedField)) :
    keysE (r.withEntries e2) = .ok (e2.map Prod.fst) := by
  cases r with
  | mk e => rfl
  | mkf e f =>
    simp only [keysE] at h
    split at h
    case _ hemp =>
      simp only [FIC.withEntries, keysE, hemp, if_true]
    case _ hemp =>
      split at h <;> cases h

/-- The step on a looked-up field whose discovery succeeds with `requested`
contained in the on-disk list: keep the field, record the dependency. -/
theorem checkOne_good_step {cfg : Cfg} {st : St} {deps : Deps}
    {unav : List FName} {f : FName} {fi : DerivedField} {fd : FieldDetector}
    (hlook : alookup st.fic.entries f = some fi)
    (hdeps : cfg.getDeps fi = .ok fd)
    (hall : (fd.requested.all fun x => cfg.field_list.contains x) = true) :
    checkOne cfg (st, deps, unav) f
      = .ok (st, dinsert deps f ⟨fd.requested.dedup⟩, unav) := by
  simp only [checkOne, getItemE_of_alookup hlook, hdeps, hall, Bool.not_true,
    Bool.false_eq_true, if_false]

/-- The step on a looked-up field whose discovery raises, outside the strict
set, when the error is field-not-found or the dataset is not a field-test
dataset: drop silently. -/
theorem checkOne_error_drop_step {cfg : Cfg} {st : St} {deps : Deps}
    {unav : List FName} {f : FName} {fi : DerivedField} {e : PyExc}
    (hlook : alookup st.fic.entries f = some fi)
    (herr : cfg.getDeps fi = .error e)
    (hshow : f ∉ cfg.show_field_errors)
    (hlen : e.isFieldNotFound = true ∨ cfg.field_test_dataset = false) :
    checkOne cfg (st, deps, unav) f = .ok (popSt st f, deps, unav) := by
  have hc : cfg.show_field_errors.contains f = false := by simpa using hshow
  rcases hlen with h | h
  · exact (checkOne_error_aux cfg st deps unav f fi e hlook herr).2.1 hc h
  · cases hnf : e.isFieldNotFound with
    | true => exact (checkOne_error_aux cfg st deps unav f fi e hlook herr).2.1 hc hnf
    | false =>
      exact (checkOne_error_aux cfg st deps unav f fi e hlook herr).2.2.2 hc hnf h

/-- The step on a looked-up field whose discovery raises in a re-raising
configuration: the error propagates. -/
theorem checkOne_error_raise_step {cfg : Cfg} {st : St} {deps : Deps}
    {unav : List FName} {f : FName} {fi : DerivedField} {e : PyExc}
    (hlook : alookup st.fic.entries f = some fi)
    (herr : cfg.getDeps fi = .error e)
    (hraise : f ∈ cfg.show_field_errors ∨
      (e.isFieldNotFound = false ∧ cfg.field_test_dataset = true)) :
    checkOne cfg (st, deps, unav) f = .error e := by
  rcases hraise with h | ⟨h1, h2⟩
  · have hc : cfg.show_field_errors.contains f = true := by simpa using h
    exact (checkOne_error_aux cfg st deps unav f fi e hlook herr).1 hc
  · by_cases hc : f ∈ cfg.show_field_errors
    · exact (checkOne_error_aux cfg st deps unav f fi e hlook herr).1 (by simpa using hc)
    · exact (checkOne_error_aux cfg st deps unav f fi e hlook herr).2.2.1
        (by simpa using hc) h1 h2

/-- Full characterization of a successful validator loop run over exactly
the (remaining) keys of the registry's own local dict: the survivors are
the good entries, the dependency map collects their records in key order,
and the unavailable list collects the missing ones. -/
theorem checkFields_char {cfg : Cfg} : ∀ (rest pre : List (FName × DerivedField))
    (st : St) (deps : Deps) (unav : List FName) (out : St × Deps × List FName),
    st.fic.entries = pre ++ rest →
    ((pre ++ rest).map Prod.fst).Nodup →
    (∀ g ∈ rest.map Prod.fst, g ∉ deps.map Prod.fst) →
    checkFields cfg (rest.map Prod.fst) (st, deps, unav) = .ok out →
    out = charOut cfg st deps unav pre rest
  | [], pre, st, deps, unav, out, hent, hnd, hdisj, h => by
    obtain rfl := Except.ok.inj h
    rw [List.append_nil] at hent
    simp only [charOut, List.filter_nil, List.map_nil, List.append_nil,
      ← hent, withEntries_self]
  | (g, fi) :: rest', pre, st, deps, unav, out, hent, hnd, hdisj, h => by
    have hndflat : (pre.map Prod.fst ++ (g :: rest'.map Prod.fst)).Nodup := by
      simpa using hnd
    have hgpre : g ∉ pre.map Prod.fst := fun hm =>
      (List.disjoint_of_nodup_append hndflat) hm (by simp)
    have hgrest : g ∉ rest'.map Prod.fst :=
      (List.nodup_cons.mp (List.nodup_append.mp hndflat).2.1).1
    have hlook : alookup st.fic.entries g = some fi := by
      rw [hent]; exact alookup_append_cons hgpre
    have hentpop : (popSt st g).fic.entries = pre ++ rest' := by
      simp only [popSt, withEntries_entries, hent]
      exact eraseP_append_cons hgpre
    have hndsub : ((pre ++ rest').map Prod.fst).Nodup := by
      have hsub : ((pre ++ rest').map Prod.fst).Sublist
          ((pre ++ (g, fi) :: rest').map Prod.fst) := by
        simp only [List.map_append, List.map_cons]
        exact (List.sublist_cons_self g (rest'.map Prod.fst)).append_left (pre.map Prod.fst)
      exact hsub.nodup hnd
    have hdisj' : ∀ g' ∈ rest'.map Prod.fst, g' ∉ deps.map Prod.fst :=
      fun g' hg' => hdisj g' (by simp [hg'])
    simp only [List.map_cons, checkFields] at h
    cases hdeo : cfg.getDeps fi with
    | error e =>
      have hgood : goodPair cfg (g, fi) = false := by simp [goodPair, hdeo]
      have hmisp : missingPair cfg (g, fi) = false := by simp [missingPair, hdeo]
      by_cases hshow : g ∈ cfg.show_field_errors
      · rw [checkOne_error_raise_step hlook hdeo (Or.inl hshow)] at h
        cases h
      · have hdrop : (e.isFieldNotFound = true ∨ cfg.field_test_dataset = false) →
            out = charOut cfg st deps unav pre ((g, fi) :: rest') := by
          intro hlen
          rw [checkOne_error_drop_step hlook hdeo hshow hlen] at h
          have IH := checkFields_char rest' pre (popSt st g) deps unav out
            hentpop hndsub hdisj' h
          rw [IH]
          simp [charOut, popSt, withEntries_withEntries, List.filter_cons, hgood, hmisp]
        cases hnf : e.isFieldNotFound with
        | true => exact hdrop (Or.inl hnf)
        | false =>
          cases htest : cfg.field_test_dataset with
          | true =>
            rw [checkOne_error_raise_step hlook hdeo (Or.inr ⟨hnf, htest⟩)] at h
            cases h
          | false => exact hdrop (Or.inr htest)
    | ok fd =>
      cases hall : (fd.requested.all fun x => cfg.field_list.contains x) with
      | false =>
        have hgood : goodPair cfg (g, fi) = false := by
          simp only [goodPair, hdeo]
          exact hall
        have hmisp : missingPair cfg (g, fi) = true := by
          simp only [missingPair, hdeo, hall, Bool.not_false]
        rw [@checkOne_missing_step cfg st deps unav g fi fd hlook hdeo hall] at h
        have IH := checkFields_char rest' pre (popSt st g) deps (unav ++ [g]) out
          hentpop hndsub hdisj' h
        rw [IH]
        simp [charOut, popSt, withEntries_withEntries, List.filter_cons, hgood, hmisp]
      | true =>
        have hgood : goodPair cfg (g, fi) = true := by
          simp only [goodPair, hdeo]
          exact hall
        have hmisp : missingPair cfg (g, fi) = false := by
          simp only [missingPair, hdeo, hall, Bool.not_true]
        have hdet : detOf cfg fi = ⟨fd.requested.dedup⟩ := by simp [detOf, hdeo]
        have hgnot : g ∉ deps.map Prod.fst := hdisj g (by simp)
        rw [checkOne_good_step hlook hdeo hall, dinsert_of_key_not_mem hgnot] at h
        have hentx : st.fic.entries = (pre ++ [(g, fi)]) ++ rest' := by
          rw [hent]; simp
        have hndx : (((pre ++ [(g, fi)]) ++ rest').map Prod.fst).Nodup := by
          have hx : (pre ++ [(g, fi)]) ++ rest' = pre ++ (g, fi) :: rest' := by simp
          rw [hx]; exact hnd
        have hdisjx : ∀ g' ∈ rest'.map Prod.fst,
            g' ∉ (deps ++ [(g, (⟨fd.requested.dedup⟩ : FieldDetector))]).map Prod.fst := by
          intro g' hg' hmem
          rcases List.mem_map.mp hmem with ⟨q, hq, hq1⟩
          rcases List.mem_append.mp hq with hq | hq
          · exact hdisj' g' hg' (List.mem_map.mpr ⟨q, hq, hq1⟩)
          · have hqe : q = (g, (⟨fd.requested.dedup⟩ : FieldDetector)) := by simpa using hq
            rw [hqe] at hq1
            have hgg : g = g' := by simpa using hq1
            exact hgrest (by rw [hgg]; exact hg')
        have IH := checkFields_char rest' (pre ++ [(g, fi)]) st
          (deps ++ [(g, ⟨fd.requested.dedup⟩)]) unav out hentx hndx hdisjx h
        rw [IH]
        simp [charOut, List.filter_cons, hgood, hdet, hmisp]

/-- A validator loop over keys whose entries are all good keeps the state
unchanged, reports no unavailable fields, and appends every dependency
record. -/
theorem checkFields_all_good {cfg : Cfg} : ∀ (rest pre : List (FName × DerivedField))
    (st : St) (deps : Deps) (unav : List FName),
    st.fic.entries = pre ++ rest →
    ((pre ++ rest).map Prod.fst).Nodup →
    (∀ p ∈ rest, goodPair cfg p = true) →
    (∀ g ∈ rest.map Prod.fst, g ∉ deps.map Prod.fst) →
    checkFields cfg (rest.map Prod.fst) (st, deps, unav)
      = .ok (st, deps ++ rest.map (fun p => (p.1, detOf cfg p.2)), unav)
  | [], pre, st, deps, unav, hent, hnd, hgood, hdisj => by
    simp only [List.map_nil, List.append_nil, checkFields]
  | (g, fi) :: rest', pre, st, deps, unav, hent, hnd, hgood, hdisj => by
    have hndflat : (pre.map Prod.fst ++ (g :: rest'.map Prod.fst)).Nodup := by
      simpa using hnd
    have hgpre : g ∉ pre.map Prod.fst := fun hm =>
      (List.disjoint_of_nodup_append hndflat) hm (by simp)
    have hgrest : g ∉ rest'.map Prod.fst :=
      (List.nodup_cons.mp (List.nodup_append.mp hndflat).2.1).1
    have hlook : alookup st.fic.entries g = some fi := by
      rw [hent]; exact alookup_append_cons hgpre
    have hg := hgood (g, fi) (by simp)
    obtain ⟨fd, hdeo, hall⟩ : ∃ fd, cfg.getDeps fi = .ok fd
        ∧ (fd.requested.all fun x => cfg.field_list.contains x) = true := by
      unfold goodPair at hg
      split at hg
      · exact ⟨_, by assumption, hg⟩
      · cases hg
    have hdet : detOf cfg fi = ⟨fd.requested.dedup⟩ := by simp [detOf, hdeo]
    have hgnot : g ∉ deps.map Prod.fst := hdisj g (by simp)
    have hentx : st.fic.entries = (pre ++ [(g, fi)]) ++ rest' := by rw [hent]; simp
    have hndx : (((pre ++ [(g, fi)]) ++ rest').map Prod.fst).Nodup := by
      have : (pre ++ [(g, fi)]) ++ rest' = pre ++ (g, fi) :: rest' := by simp
      rw [this]; exact hnd
    have hdisjx : ∀ g' ∈ rest'.map Prod.fst,
        g' ∉ (deps ++ [(g, (⟨fd.requested.dedup⟩ : FieldDetector))]).map Prod.fst := by
      intro g' hg' hmem
      rcases List.mem_map.mp hmem with ⟨q, hq, hq1⟩
      rcases List.mem_append.mp hq with hq | hq
      · exact hdisj g' (by simp [hg']) (List.mem_map.mpr ⟨q, hq, hq1⟩)
      · have hqe : q = (g, (⟨fd.requested.dedup⟩ : FieldDetector)) := by simpa using hq
        rw [hqe] at hq1
        have hgg : g = g' := by simpa using hq1
        exact hgrest (by rw [hgg]; exact hg')
    have IH := checkFields_all_good rest' (pre ++ [(g, fi)]) st
      (deps ++ [(g, ⟨fd.requested.dedup⟩)]) unav hentx hndx
      (fun p hp => hgood p (by simp [hp])) hdisjx
    simp only [List.map_cons, checkFields, checkOne_good_step hlook hdeo hall,
      dinsert_of_key_not_mem hgnot, IH, hdet]
    simp

/-! ## Claim C2 — the validation pass is idempotent -/

/-- C2: running `check_derived_fields` over all registered fields twice in
succession: whenever the first run returns, the second run also returns,
with an empty unavailable list and a dependency map equal to the first
run's, and it removes no field that survived the first pass (the registry
dict, fallback included, is unchanged). -/
theorem validate_idempotent (cfg : Cfg) (st st1 : St) (deps1 : Deps)
    (unav1 : List FName)
    (hkeys : (st.fic.entries.map Prod.fst).Nodup)
    (hrun1 : check_derived_fields cfg st none = .ok (st1, deps1, unav1)) :
    ∃ st2, check_derived_fields cfg st1 none = .ok (st2, deps1, [])
      ∧ st2.fic = st1.fic := by
  cases hk : keysE st.fic with
  | error e =>
    simp only [check_derived_fields, resolve_fields_to_check, hk] at hrun1
    cases hrun1
  | ok l =>
    simp only [check_derived_fields, resolve_fields_to_check, hk] at hrun1
    have hlk : l = st.fic.entries.map Prod.fst := keysE_ok hk
    subst hlk
    split at hrun1
    · cases hrun1
    case _ stA depsA unavA hfold =>
      have hchar := checkFields_char st.fic.entries [] st [] [] (stA, depsA, unavA)
        (by simp) (by simpa using hkeys) (by simp) hfold
      have hstA : stA.fic = st.fic.withEntries (st.fic.entries.filter (goodPair cfg)) := by
        have hx := congrArg (fun x => x.1.fic) hchar
        simpa [charOut] using hx
      have hdepsA : depsA
          = (st.fic.entries.filter (goodPair cfg)).map (fun p => (p.1, detOf cfg p.2)) := by
        have hx := congrArg (fun x => x.2.1) hchar
        simpa [charOut] using hx
      obtain ⟨h1, h2, h3⟩ : (publishDfl stA depsA = st1)
          ∧ depsA = deps1 ∧ unavA = unav1 := by
        have hx := Except.ok.inj hrun1
        exact ⟨congrArg Prod.fst hx, congrArg (fun p => p.2.1) hx,
          congrArg (fun p => p.2.2) hx⟩
      have hfic1 : st1.fic = st.fic.withEntries (st.fic.entries.filter (goodPair cfg)) := by
        rw [← h1]
        exact hstA
      have hent1 : st1.fic.entries = st.fic.entries.filter (goodPair cfg) := by
        rw [hfic1, withEntries_entries]
      have hkeys2 : keysE st1.fic = .ok (st1.fic.entries.map Prod.fst) := by
        rw [hfic1, withEntries_entries]
        exact keysE_ok_withEntries hk _
      have hnd1 : (st1.fic.entries.map Prod.fst).Nodup := by
        rw [hent1]
        exact ((List.filter_sublist st.fic.entries).map Prod.fst).nodup hkeys
      have hgood1 : ∀ p ∈ st1.fic.entries, goodPair cfg p = true := by
        rw [hent1]
        exact fun p hp => (List.mem_filter.mp hp).2
      have hfold2 := checkFields_all_good st1.fic.entries [] st1 [] []
        (by simp) (by simpa using hnd1) hgood1 (by simp)
      have hdeps2 : st1.fic.entries.map (fun p => (p.1, detOf cfg p.2)) = deps1 := by
        rw [hent1, ← hdepsA, h2]
      refine ⟨publishDfl st1 deps1, ?_, rfl⟩
      simp only [check_derived_fields, resolve_fields_to_check, hkeys2, hfold2,
        List.nil_append, hdeps2]

/-- Witness for C2: the pass on the concrete mixed registry, re-run on its
own pruned output, returns the same dependency map, an empty unavailable
list, and an unchanged dict. -/
theorem validate_idempotent_witness :
    ∃ st2, check_derived_fields cfgMixed stTwoPruned none = .ok (st2, depsTwo, [])
      ∧ st2.fic = stTwoPruned.fic :=
  validate_idempotent cfgMixed stTwo stTwoPruned depsTwo [FName.pair "gas" "bad"]
    (by decide) rfl

/-! ## Claim C3 — unsatisfiable fields are pruned and recorded -/

/-- C3: any checked field whose discovered `requested` set is not contained
in the dataset's on-disk field list is removed from the registry's local
dict, appended to the returned unavailable list, and absent from the
returned dependency map. -/
theorem unsatisfiable_fields_pruned (cfg : Cfg) (st : St)
    (ftc : Option (List FName)) (l : List FName) (f : FName)
    (fi : DerivedField) (fd : FieldDetector) (st' : St) (deps : Deps)
    (unav : List FName)
    (hres : resolve_fields_to_check st ftc = .ok l)
    (hnodup : l.Nodup)
    (hkeys : (st.fic.entries.map Prod.fst).Nodup)
    (hf : f ∈ l)
    (hlook : alookup st.fic.entries f = some fi)
    (hdeps : cfg.getDeps fi = .ok fd)
    (hmiss : (fd.requested.all fun x => cfg.field_list.contains x) = false)
    (hrun : check_derived_fields cfg st ftc = .ok (st', deps, unav)) :
    f ∈ unav ∧ f ∉ deps.map Prod.fst ∧ alookup st'.fic.entries f = none := by
  simp only [check_derived_fields, hres] at hrun
  split at hrun
  · cases hrun
  case _ st2 deps2 unav2 hfold =>
    obtain ⟨h1, h2, h3⟩ : (publishDfl st2 deps2 = st')
        ∧ deps2 = deps ∧ unav2 = unav := by
      have := Except.ok.inj hrun
      exact ⟨congrArg Prod.fst this, congrArg (fun p => p.2.1) this,
        congrArg (fun p => p.2.2) this⟩
    obtain ⟨l1, l2, rfl⟩ := List.append_of_mem hf
    have hf1 : f ∉ l1 := by
      intro hm
      have := List.disjoint_of_nodup_append hnodup
      exact this hm (List.mem_cons_self f l2)
    have hf2 : f ∉ l2 := by
      have := (List.nodup_append.mp hnodup).2.1
      exact (List.nodup_cons.mp this).1
    rw [checkFields_append] at hfold
    split at hfold
    · cases hfold
    case _ acc1 hfold1 =>
      obtain ⟨stA, depsA, unavA⟩ := acc1
      obtain ⟨_, _, _, _, hsub1, _, hfr1⟩ := checkFields_frame l1 _ _ hfold1
      obtain ⟨hfr1a, hfr1b⟩ := hfr1 f hf1
      have hlook1 : alookup stA.fic.entries f = some fi := by rw [hfr1a]; exact hlook
      have hnd1 : (stA.fic.entries.map Prod.fst).Nodup :=
        (hsub1.map Prod.fst).nodup hkeys
      have hstep := @checkOne_missing_step cfg stA depsA unavA f fi fd hlook1 hdeps hmiss
      simp only [checkFields, hstep] at hfold
      obtain ⟨_, _, _, _, _, ⟨w2, hw2⟩, hfr2⟩ := checkFields_frame l2 _ _ hfold
      obtain ⟨hfr2a, hfr2b⟩ := hfr2 f hf2
      have hw2x : unav2 = (unavA ++ [f]) ++ w2 := hw2
      have hfr2ax : alookup st2.fic.entries f
          = alookup (popSt stA f).fic.entries f := hfr2a
      have hfr2bx : f ∈ deps2.map Prod.fst ↔ f ∈ depsA.map Prod.fst := hfr2b
      have hfr1bx : f ∈ depsA.map Prod.fst ↔ f ∈ ([] : Deps).map Prod.fst := hfr1b
      refine ⟨?_, ?_, ?_⟩
      · rw [← h3, hw2x]
        simp
      · rw [← h2]
        intro hm
        have hm1 : f ∈ depsA.map Prod.fst := hfr2bx.mp hm
        have : f ∈ ([] : Deps).map Prod.fst := hfr1bx.mp hm1
        simp at this
      · rw [← h1]
        have hgoal : alookup st2.fic.entries f = none := by
          rw [hfr2ax]
          simp only [popSt, withEntries_entries]
          exact alookup_eraseP_self hnd1
        exact hgoal

/-- Witness for C3 at a concrete two-field registry: `("gas", "bad")`
requests an identity missing from disk and ends up pruned, recorded
unavailable, and outside the dependency map. -/
theorem unsatisfiable_fields_pruned_witness :
    FName.pair "gas" "bad" ∈ [FName.pair "gas" "bad"]
    ∧ FName.pair "gas" "bad" ∉ depsTwo.map Prod.fst
    ∧ alookup stTwoPruned.fic.entries (FName.pair "gas" "bad") = none :=
  unsatisfiable_fields_pruned cfgMixed stTwo none
    [FName.pair "gas" "good", FName.pair "gas" "bad"] (.pair "gas" "bad") dfBad
    ⟨[("gas", "nope")]⟩ stTwoPruned depsTwo [FName.pair "gas" "bad"]
    rfl (by decide) (by decide) (by decide) rfl rfl rfl rfl

/-! ## Claim C9 — plugin order and published-list determinism -/

theorem tupLeB_trans {a b c : FName} (h1 : tupLeB a b = true)
    (h2 : tupLeB b c = true) : tupLeB a c = true := pairLeB_trans h1 h2

theorem tupLeB_total (a b : FName) : (tupLeB a b || tupLeB b a) = true :=
  pairLeB_total _ _

/-- A stable sort produces a list ordered by its comparison. -/
theorem pysort_sorted {α : Type} (le : α → α → Bool)
    (htr : ∀ {a b c : α}, le a b = true → le b c = true → le a c = true)
    (htot : ∀ a b : α, (le a b || le b a) = true) (l : List α) :
    List.Pairwise (fun a b => le a b = true) (pysort le l) := by
  haveI : IsTotal α (fun a b => le a b = true) := ⟨fun a b => by
    cases hab : le a b with
    | true => exact Or.inl rfl
    | false =>
      right
      have hx := htot a b
      rw [hab] at hx
      simpa using hx⟩
  haveI : IsTrans α (fun a b => le a b = true) := ⟨fun a b c h1 h2 => htr h1 h2⟩
  exact List.sorted_insertionSort _ l

/-- For an antisymmetric comparison, the sorted output is a function of the
input's multiset alone. -/
theorem pysort_eq_of_perm {α : Type} (le : α → α → Bool)
    (htr : ∀ {a b c : α}, le a b = true → le b c = true → le a c = true)
    (htot : ∀ a b : α, (le a b || le b a) = true)
    (hanti : ∀ {a b : α}, le a b = true → le b a = true → a = b)
    {l1 l2 : List α} (h : l1.Perm l2) : pysort le l1 = pysort le l2 := by
  haveI : IsTotal α (fun a b => le a b = true) := ⟨fun a b => by
    cases hab : le a b with
    | true => exact Or.inl rfl
    | false =>
      right
      have hx := htot a b
      rw [hab] at hx
      simpa using hx⟩
  haveI : IsTrans α (fun a b => le a b = true) := ⟨fun a b c h1 h2 => htr h1 h2⟩
  haveI : IsAntisymm α (fun a b => le a b = true) := ⟨fun a b h1 h2 => hanti h1 h2⟩
  exact List.eq_of_perm_of_sorted
    ((List.perm_insertionSort _ l1).trans (h.trans (List.perm_insertionSort _ l2).symm))
    (List.sorted_insertionSort _ l1) (List.sorted_insertionSort _ l2)

/-- C9: `load_all_plugins` is insensitive to the order in which the plugin
routines were registered — it applies them in sorted (lexicographic) name
order and looks each up by name, so two permuted plugin registries produce
identical results, derived-field list included; and whenever it returns,
the published derived-field list is sorted by the `tupleize` key (bare
names tupleized with the fixed `"?"` sentinel, compared
category-then-name). -/
theorem load_all_plugins_deterministic (cfg : Cfg)
    (fp1 fp2 : List (String × Plugin)) (st : St)
    (hperm : fp1.Perm fp2) (hnd : (fp1.map Prod.fst).Nodup) :
    load_all_plugins cfg fp1 st = load_all_plugins cfg fp2 st
    ∧ List.Pairwise (fun a b => strLeB a b = true) (pysort strLeB (fp1.map Prod.fst))
    ∧ ∀ out, load_all_plugins cfg fp1 st = .ok out →
        List.Pairwise (fun a b => tupLeB a b = true) out.1.derived_field_list := by
  refine ⟨?_, ?_, ?_⟩
  · have hnames : pysort strLeB (fp1.map Prod.fst) = pysort strLeB (fp2.map Prod.fst) :=
      pysort_eq_of_perm strLeB (fun h1 h2 => strLeB_trans h1 h2) strLeB_total
        (fun h1 h2 => strLeB_antisymm h1 h2) (hperm.map Prod.fst)
    have hstep : loadStep fp1 = loadStep fp2 := by
      funext acc n
      unfold loadStep
      rw [alookup_perm hperm hnd n]
    unfold load_all_plugins
    rw [hnames, hstep]
  · exact pysort_sorted strLeB (fun h1 h2 => strLeB_trans h1 h2) strLeB_total _
  · intro out h
    simp only [load_all_plugins, find_dependencies] at h
    split at h
    · cases h
    case _ st1 deps unav heq =>
      obtain rfl := Except.ok.inj h
      exact pysort_sorted tupLeB (fun h1 h2 => tupLeB_trans h1 h2) tupLeB_total _

/-- Witness for C9 on two concrete permuted plugin registries. -/
theorem load_all_plugins_deterministic_witness :
    load_all_plugins cfgTriv [("b", pluginId), ("a", pluginId)] stEmpty
      = load_all_plugins cfgTriv [("a", pluginId), ("b", pluginId)] stEmpty
    ∧ List.Pairwise (fun a b => strLeB a b = true)
        (pysort strLeB ([("b", pluginId), ("a", pluginId)].map Prod.fst))
    ∧ ∀ out, load_all_plugins cfgTriv [("b", pluginId), ("a", pluginId)] stEmpty = .ok out →
        List.Pairwise (fun a b => tupLeB a b = true) out.1.derived_field_list :=
  load_all_plugins_deterministic cfgTriv [("b", pluginId), ("a", pluginId)]
    [("a", pluginId), ("b", pluginId)] stEmpty
    (List.Perm.swap ("a", pluginId) ("b", pluginId) [])
    (by decide)

end Yt
